import Mathlib

/-!
Verification of the symbol-interning benchmark of `micrometrics`
(`src/cpp/src/0001-string-interning.cpp`).

The C++ program is embedded shallowly:

* `SymbolRegistry` keeps the forward map `string_to_id_`
  (an `unordered_map`, embedded as an association list whose keys are
  pairwise distinct because `get_id` only inserts after a failed lookup)
  and the reverse table `id_to_string_` (a `vector`, embedded as a list).
  The `std::mutex` only serialises access and has no observable effect in a
  single-threaded embedding.  IDs are `uint32_t` in the source; the value
  stored is exactly `id_to_string_.size()` at insertion time, and the cast
  `static_cast<uint32_t>` is value-preserving while fewer than `2^32`
  distinct symbols exist (the program registers at most the 45 pool symbols
  plus workload copies of them), so IDs are embedded as `Nat`.
* Stateful loops become folds threading the registry state.
* `id_to_string_.at(id)` becomes an `Option`: `none` models the thrown
  `std::out_of_range`.
* Wall-clock timing (`Timer`, the `ms` fields of `FanoutResult`) is not
  modelled; only the match counts, the control flow, the diagnostics and the
  exit code are.
* `std::mt19937` is embedded by its standard-mandated algorithm.
  `std::uniform_int_distribution` has an implementation-defined value
  derivation; the standard only guarantees a result inside the requested
  closed range, which is modelled as reduction of one raw draw modulo the
  range size.
-/

/-- Lookup in the forward map, the embedding of
`string_to_id_.find(std::string(symbol))`: the mapped id of `s`, or `none`
when absent. -/
def lookupId : List (String × Nat) → String → Option Nat
  | [], _ => none
  | (k, v) :: rest, s => if s = k then some v else lookupId rest s

/-- State of `SymbolRegistry`: forward map `string_to_id_` and reverse table
`id_to_string_`. -/
structure SymbolRegistry where
  string_to_id : List (String × Nat)
  id_to_string : List String
deriving DecidableEq

/-- `SymbolRegistry::get_id`: return the existing id if the symbol was seen,
otherwise assign `id_to_string_.size()` as the new id, insert it into the
forward map and append the symbol to the reverse table. -/
def SymbolRegistry.get_id (r : SymbolRegistry) (symbol : String) : Nat × SymbolRegistry :=
  match lookupId r.string_to_id symbol with
  | some id => (id, r)
  | none =>
      (r.id_to_string.length,
        { string_to_id := (symbol, r.id_to_string.length) :: r.string_to_id,
          id_to_string := r.id_to_string ++ [symbol] })

/-- `SymbolRegistry::get_symbol`: `id_to_string_.at(id)`; the `none` result
models the `std::out_of_range` exception thrown by `at`. -/
def SymbolRegistry.get_symbol (r : SymbolRegistry) (id : Nat) : Option String :=
  r.id_to_string[id]?

/-- The default-constructed registry (`SymbolRegistry registry;`). -/
def emptyRegistry : SymbolRegistry := ⟨[], []⟩

/-- Folding `get_id` over a list of symbols keeping only the final registry:
the registry effect of every loop in `main` that calls `get_id` on each
element (pool pre-registration and the volatile-sink warm-up loops). -/
def runGetIds (r : SymbolRegistry) (ws : List String) : SymbolRegistry :=
  ws.foldl (fun acc s => (acc.get_id s).2) r

/-- Joint consistency of the registry's two structures: every forward-map
entry points at the reverse-table cell holding its key, and every
reverse-table cell looks up to its own index. -/
structure RegistryWf (r : SymbolRegistry) : Prop where
  forward : ∀ p ∈ r.string_to_id, r.id_to_string[p.2]? = some p.1
  backward : ∀ i : Fin r.id_to_string.length,
    lookupId r.string_to_id (r.id_to_string.get i) = some i.1

instance (r : SymbolRegistry) : Decidable (RegistryWf r) :=
  decidable_of_iff
    ((∀ p ∈ r.string_to_id, r.id_to_string[p.2]? = some p.1) ∧
      ∀ i : Fin r.id_to_string.length,
        lookupId r.string_to_id (r.id_to_string.get i) = some i.1)
    ⟨fun h => ⟨h.1, h.2⟩, fun h => ⟨h.forward, h.backward⟩⟩

/-- Abstraction relating a registry to the finite set `S` of symbols
registered so far: the tables are consistent, exactly the members of `S` are
found by lookup, and the reverse table has one cell per member. -/
structure RegInv (r : SymbolRegistry) (S : Finset String) : Prop where
  wf : RegistryWf r
  mem_iff : ∀ s : String, (lookupId r.string_to_id s).isSome ↔ s ∈ S
  size_eq : r.id_to_string.length = S.card

/-- The static catalogue `SYMBOL_POOL` (45 symbols in five categories). -/
def SYMBOL_POOL : List String :=
  ["AAPL", "MSFT", "GOOGL", "AMZN", "NVDA",
   "TSLA", "META", "BRK.B", "JPM", "V",
   "SPY", "QQQ", "IWM", "DIA", "GLD",
   "TLT", "VTI", "EEM", "XLF", "HYG",
   "EURUSD", "GBPUSD", "USDJPY", "USDCHF", "AUDUSD",
   "NZDUSD", "USDCAD", "EURGBP", "EURJPY", "GBPJPY",
   "ES", "NQ", "CL", "GC", "SI",
   "NG", "ZB", "ZN", "ZC", "ZS",
   "BTCUSD", "ETHUSD", "SOLUSD", "BNBUSD", "XRPUSD"]

/-- State of `std::mt19937`: the 624 32-bit state words and the next index. -/
structure MTState where
  words : List Nat
  idx : Nat
deriving DecidableEq

/-- Seeding recurrence of `std::mt19937`:
`x[i] = (1812433253 * (x[i-1] xor (x[i-1] >> 30)) + i) mod 2^32`. -/
def mtSeedGo : Nat → Nat → Nat → List Nat
  | 0, _, _ => []
  | k + 1, i, prev =>
      ((1812433253 * (prev ^^^ (prev >>> 30)) + i) % 4294967296) ::
        mtSeedGo k (i + 1) ((1812433253 * (prev ^^^ (prev >>> 30)) + i) % 4294967296)

/-- The full 624-word seeded state of `std::mt19937`. -/
def mtSeed (seed : Nat) : List Nat :=
  (seed % 4294967296) :: mtSeedGo 623 1 (seed % 4294967296)

/-- One in-place twist round of `std::mt19937` (generation of the next 624
state words; later cells read cells already rewritten in this round). -/
def mtTwist (ws : List Nat) : List Nat :=
  (List.range 624).foldl
    (fun acc i =>
      acc.set i
        ((acc.getD ((i + 397) % 624) 0) ^^^
          ((((acc.getD i 0 &&& 2147483648) ||| (acc.getD ((i + 1) % 624) 0 &&& 2147483647)) >>> 1) ^^^
            (if ((acc.getD i 0 &&& 2147483648) ||| (acc.getD ((i + 1) % 624) 0 &&& 2147483647)) % 2 = 1
             then 2567483615 else 0))))
    ws

/-- The tempering transform of `std::mt19937`. -/
def mtTemper (y : Nat) : Nat :=
  let y1 := y ^^^ (y >>> 11)
  let y2 := y1 ^^^ ((y1 <<< 7) &&& 2636928640)
  let y3 := y2 ^^^ ((y2 <<< 15) &&& 4022730752)
  y3 ^^^ (y3 >>> 18)

/-- Draw one 32-bit value from the generator, twisting when the 624 cached
words are exhausted. -/
def mtNext (st : MTState) : Nat × MTState :=
  if st.idx ≥ 624 then
    (mtTemper ((mtTwist st.words).getD 0 0), ⟨mtTwist st.words, 1⟩)
  else
    (mtTemper (st.words.getD st.idx 0), ⟨st.words, st.idx + 1⟩)

/-- `std::mt19937 rng(seed)`: freshly seeded state, no word consumed yet. -/
def mtInit (seed : Nat) : MTState := ⟨mtSeed seed, 624⟩

/-- One draw of `std::uniform_int_distribution<int> pick(0, n-1)`.  The C++
standard leaves the value-derivation algorithm implementation-defined and
only mandates a result in `[0, n-1]`; it is modelled as one raw draw reduced
modulo the range size. -/
def pickFrom (st : MTState) (n : Nat) : Nat × MTState :=
  ((mtNext st).1 % n, (mtNext st).2)

/-- The generation loop of `generate_incoming_stream`: push
`SYMBOL_POOL[pick(rng)]` (a fresh value copy) `n` times. -/
def genGo : Nat → MTState → List String
  | 0, _ => []
  | k + 1, st =>
      SYMBOL_POOL.getD (pickFrom st SYMBOL_POOL.length).1 "" ::
        genGo k (pickFrom st SYMBOL_POOL.length).2

/-- `generate_incoming_stream(n, seed)`: a reproducible pseudo-random
sequence of `n` symbol copies drawn from the pool. -/
def generate_incoming_stream (n : Nat) (seed : Nat) : List String :=
  genGo n (mtInit seed)

/-- `isspace` on the characters C's `atoll`/`strtoll` skips. -/
def cIsSpace (c : Char) : Bool :=
  c = ' ' || c = '\t' || c = '\n' || c = '\x0b' || c = '\x0c' || c = '\r'

/-- Accumulate the leading decimal digits, stopping at the first non-digit
(the `strtoll` digit loop).  Overflow of `long long` is not modelled; the
claims only exercise in-range values. -/
def digitsVal : List Char → Int → Int
  | [], acc => acc
  | c :: cs, acc => if c.isDigit then digitsVal cs (acc * 10 + (c.toNat - 48 : Nat)) else acc

/-- `atoll(argv[1])`: skip leading whitespace, consume an optional sign and
the leading digit run; with no digits the result is 0. -/
def atoll (s : String) : Int :=
  match s.toList.dropWhile cIsSpace with
  | [] => 0
  | c :: rest =>
      if c = '-' then - digitsVal rest 0
      else if c = '+' then digitsVal rest 0
      else digitsVal (c :: rest) 0

/-- Whether a character list starts with a decimal digit. -/
def leadingDigit : List Char → Bool
  | c :: _ => c.isDigit
  | [] => false

/-- True when the argument begins (after optional whitespace and sign) with a
decimal digit, i.e. when `atoll` can extract a number at all. -/
def hasLeadingNumber (s : String) : Bool :=
  match s.toList.dropWhile cIsSpace with
  | [] => false
  | c :: rest =>
      if c = '-' ∨ c = '+' then leadingDigit rest
      else c.isDigit

/-- `ITERATIONS` in `main`: `argc > 1 ? static_cast<std::size_t>(atoll(argv[1])) : 10'000'000`.
`args` is `argv[1..]`; the cast of the signed 64-bit value to `size_t` is
reduction modulo `2^64`. -/
def ITERATIONS (args : List String) : Nat :=
  match args with
  | [] => 10000000
  | a :: _ => ((atoll a) % (18446744073709551616 : Int)).toNat

/-- The inner fanout loop `for (f = 0; f < F; ++f) if (hit) ++count`,
started at the running counter `c`. -/
def fanoutHits (hit : Bool) (F c : Nat) : Nat :=
  (List.range F).foldl (fun acc _ => if hit then acc + 1 else acc) c

/-- Registry path of the 1-to-many scenario: per element one `get_id`
(threading the registry) followed by `F` comparisons of the returned id
against the target id.  (The source binds `get_id`'s result once; the two
occurrences of `acc.2.get_id s` denote that one value.) -/
def registryScenario (r : SymbolRegistry) (tid F : Nat) (ws : List String) :
    Nat × SymbolRegistry :=
  ws.foldl
    (fun acc s => (fanoutHits ((acc.2.get_id s).1 == tid) F acc.1, (acc.2.get_id s).2))
    (0, r)

/-- Direct path of the 1-to-many scenario: per element `F` independent
string comparisons against the target text. -/
def directScenario (target : String) (F : Nat) (ws : List String) : Nat :=
  ws.foldl (fun acc s => fanoutHits (s == target) F acc) 0

/-- Registry path of the 1-to-1 scenario: one `get_id` and one id comparison
per element. -/
def registryOneToOne (r : SymbolRegistry) (tid : Nat) (ws : List String) :
    Nat × SymbolRegistry :=
  ws.foldl
    (fun acc s => (if (acc.2.get_id s).1 == tid then acc.1 + 1 else acc.1, (acc.2.get_id s).2))
    (0, r)

/-- Direct path of the 1-to-1 scenario: one string comparison per element. -/
def directOneToOne (target : String) (ws : List String) : Nat :=
  ws.foldl (fun acc s => if s == target then acc + 1 else acc) 0

/-- Diagnostic written to `std::cerr` before the early `return 1`:
which scenario failed and the two conflicting match counts. -/
inductive Diag where
  | oneToOne (a b : Nat)
  | oneToMany (fanout a b : Nat)
deriving DecidableEq

/-- One row of `fanout_results` (`ms_registry`/`ms_direct` timings are not
modelled): the fanout value and the agreed match count. -/
structure FanoutResult where
  fanout : Nat
  matchCount : Nat
deriving DecidableEq

/-- Fanout factors visited by `for (std::size_t fanout = 8; fanout <= 1024; fanout *= 2)`. -/
def fanoutSweep : List Nat := [8, 16, 32, 64, 128, 256, 512, 1024]

/-- The 1-to-many sweep of `main`: per fanout, a warm-up pass over the
workload (whose registry effect is `runGetIds`; the volatile sink itself is
unobservable), the two timed counting passes, the mismatch check with early
`return 1`, and the `fanout_results.push_back` on agreement.  Returns
(exit code, diagnostic, completed `fanout_results`). -/
def runFanoutSweep (tid : Nat) (target : String) (ws : List String) :
    List Nat → SymbolRegistry → List FanoutResult → Nat × Option Diag × List FanoutResult
  | [], _, acc => (0, none, acc)
  | f :: rest, r, acc =>
      if (registryScenario (runGetIds r ws) tid f ws).1 = directScenario target f ws then
        runFanoutSweep tid target ws rest (registryScenario (runGetIds r ws) tid f ws).2
          (acc ++ [⟨f, (registryScenario (runGetIds r ws) tid f ws).1⟩])
      else
        (1, some (Diag.oneToMany f (registryScenario (runGetIds r ws) tid f ws).1
          (directScenario target f ws)), acc)

/-- The scenario portion of `main` after workload generation: the initial
volatile-sink warm-up over the workload, the 1-to-1 scenario with its
mismatch check, then the fanout sweep. -/
def runScenarios (r : SymbolRegistry) (tid : Nat) (target : String) (ws : List String) :
    Nat × Option Diag × List FanoutResult :=
  if (registryOneToOne (runGetIds r ws) tid ws).1 = directOneToOne target ws then
    runFanoutSweep tid target ws fanoutSweep (registryOneToOne (runGetIds r ws) tid ws).2 []
  else
    (1, some (Diag.oneToOne (registryOneToOne (runGetIds r ws) tid ws).1
      (directOneToOne target ws)), [])

/-- Specification-side list of every scenario's (registry count, direct
count) pair, tagged `none` for the 1-to-1 scenario and `some f` for the
fanout-`f` scenario, computed with exactly the registry threading of
`runScenarios` but without the aborting checks. -/
def fanoutTagged (tid : Nat) (target : String) (ws : List String) :
    List Nat → SymbolRegistry → List (Option Nat × Nat × Nat)
  | [], _ => []
  | f :: rest, r =>
      (some f, (registryScenario (runGetIds r ws) tid f ws).1, directScenario target f ws) ::
        fanoutTagged tid target ws rest (registryScenario (runGetIds r ws) tid f ws).2

/-- All scenario count pairs of a run, 1-to-1 first. -/
def taggedPairs (r : SymbolRegistry) (tid : Nat) (target : String) (ws : List String) :
    List (Option Nat × Nat × Nat) :=
  (none, (registryOneToOne (runGetIds r ws) tid ws).1, directOneToOne target ws) ::
    fanoutTagged tid target ws fanoutSweep (registryOneToOne (runGetIds r ws) tid ws).2

/-- The whole observable run of `main`: parse `ITERATIONS` from
`argv[1..]`, pre-register the pool, intern the target `"BTCUSD"`, generate
the workload with the default seed 42, and run the scenarios. -/
def mainProgram (args : List String) : Nat × Option Diag × List FanoutResult :=
  runScenarios ((runGetIds emptyRegistry SYMBOL_POOL).get_id "BTCUSD").2
    ((runGetIds emptyRegistry SYMBOL_POOL).get_id "BTCUSD").1 "BTCUSD"
    (generate_incoming_stream (ITERATIONS args) 42)

/-! Basic list index lemmas used to relate the two registry tables. -/

theorem getElem?_none_iff {α : Type} (l : List α) (i : Nat) :
    l[i]? = none ↔ l.length ≤ i := by
  induction l generalizing i with
  | nil => simp
  | cons a t ih =>
      cases i with
      | zero => simp
      | succ j => simp [ih j]

theorem getElem?_some_lt {α : Type} {l : List α} {i : Nat} {a : α}
    (h : l[i]? = some a) : i < l.length := by
  by_contra hn
  rw [(getElem?_none_iff l i).mpr (Nat.le_of_not_lt hn)] at h
  cases h

theorem getElem?_of_get {α : Type} : ∀ (l : List α) (i : Fin l.length),
    l[i.1]? = some (l.get i) := by
  intro l
  induction l with
  | nil => intro i; exact absurd i.isLt (by simp)
  | cons a t ih =>
      intro i
      cases i using Fin.cases with
      | zero => simp
      | succ j => simp [ih j]

theorem get_of_getElem? {α : Type} {l : List α} {i : Nat} {a : α}
    (h : l[i]? = some a) (hlt : i < l.length) : l.get ⟨i, hlt⟩ = a := by
  have := getElem?_of_get l ⟨i, hlt⟩
  rw [this] at h
  exact Option.some.inj h

theorem getElem?_append_lt {α : Type} :
    ∀ (l : List α) (b : α) (i : Nat), i < l.length → (l ++ [b])[i]? = l[i]? := by
  intro l
  induction l with
  | nil => intro b i h; cases h
  | cons a t ih =>
      intro b i h
      cases i with
      | zero => simp
      | succ j => simp [ih b j (Nat.lt_of_succ_lt_succ h)]

theorem getElem?_append_len {α : Type} :
    ∀ (l : List α) (b : α), (l ++ [b])[l.length]? = some b := by
  intro l
  induction l with
  | nil => intro b; rfl
  | cons a t ih => intro b; simp [ih b]


/-! Registry lemmas: the two branches of `get_id`, lookup stability, and
preservation of the table consistency invariant. -/

theorem get_id_of_lookup {r : SymbolRegistry} {s : String} {id : Nat}
    (h : lookupId r.string_to_id s = some id) : r.get_id s = (id, r) := by
  unfold SymbolRegistry.get_id
  rw [h]

theorem get_id_of_none {r : SymbolRegistry} {s : String}
    (h : lookupId r.string_to_id s = none) :
    r.get_id s = (r.id_to_string.length,
      ⟨(s, r.id_to_string.length) :: r.string_to_id, r.id_to_string ++ [s]⟩) := by
  unfold SymbolRegistry.get_id
  rw [h]

theorem lookupId_mem : ∀ {l : List (String × Nat)} {s : String} {id : Nat},
    lookupId l s = some id → (s, id) ∈ l := by
  intro l
  induction l with
  | nil => intro s id h; cases h
  | cons p rest ih =>
      intro s id h
      obtain ⟨k, v⟩ := p
      by_cases hk : s = k
      · subst hk
        simp only [lookupId, if_pos rfl] at h
        simp [← Option.some.inj h]
      · simp only [lookupId, if_neg hk] at h
        exact List.mem_cons_of_mem _ (ih h)

theorem wf_lookup_getElem {r : SymbolRegistry} (hwf : RegistryWf r) {s : String} {id : Nat}
    (h : lookupId r.string_to_id s = some id) : r.id_to_string[id]? = some s :=
  hwf.forward (s, id) (lookupId_mem h)

theorem wf_inj {r : SymbolRegistry} (hwf : RegistryWf r) {s t : String} {i : Nat}
    (h1 : lookupId r.string_to_id s = some i) (h2 : lookupId r.string_to_id t = some i) :
    s = t := by
  have e1 := wf_lookup_getElem hwf h1
  have e2 := wf_lookup_getElem hwf h2
  rw [e1] at e2
  exact Option.some.inj e2

theorem wf_getElem_lookup {r : SymbolRegistry} (hwf : RegistryWf r) {i : Nat} {s : String}
    (h : r.id_to_string[i]? = some s) : lookupId r.string_to_id s = some i := by
  have hlt := getElem?_some_lt h
  have hget := get_of_getElem? h hlt
  have := hwf.backward ⟨i, hlt⟩
  rw [hget] at this
  exact this

theorem get_id_self_lookup (r : SymbolRegistry) (s : String) :
    lookupId (r.get_id s).2.string_to_id s = some (r.get_id s).1 := by
  cases hl : lookupId r.string_to_id s with
  | some id => rw [get_id_of_lookup hl]; exact hl
  | none =>
      rw [get_id_of_none hl]
      simp [lookupId]

theorem get_id_preserves {r : SymbolRegistry} {t : String} {i : Nat} (s : String)
    (h : lookupId r.string_to_id t = some i) :
    lookupId (r.get_id s).2.string_to_id t = some i := by
  cases hl : lookupId r.string_to_id s with
  | some id => rw [get_id_of_lookup hl]; exact h
  | none =>
      rw [get_id_of_none hl]
      have hne : t ≠ s := by
        intro he
        rw [he, hl] at h
        cases h
      simp only [lookupId, if_neg hne]
      exact h

theorem get_id_wf {r : SymbolRegistry} (hwf : RegistryWf r) (s : String) :
    RegistryWf (r.get_id s).2 := by
  cases hl : lookupId r.string_to_id s with
  | some id => rw [get_id_of_lookup hl]; exact hwf
  | none =>
      rw [get_id_of_none hl]
      constructor
      · intro p hp
        rcases List.mem_cons.mp hp with hp | hp
        · subst hp
          exact getElem?_append_len r.id_to_string s
        · have h0 := hwf.forward p hp
          have hlt := getElem?_some_lt h0
          show (r.id_to_string ++ [s])[p.2]? = some p.1
          rw [getElem?_append_lt _ _ _ hlt]
          exact h0
      · intro i
        have hq := getElem?_of_get (r.id_to_string ++ [s]) i
        have hlen : i.1 < r.id_to_string.length + 1 := by
          have := i.isLt
          simpa using this
        by_cases hi : i.1 < r.id_to_string.length
        · rw [getElem?_append_lt _ _ _ hi] at hq
          have hlook := wf_getElem_lookup hwf hq
          have hne : (r.id_to_string ++ [s]).get i ≠ s := by
            intro he
            rw [he, hl] at hlook
            cases hlook
          show lookupId ((s, r.id_to_string.length) :: r.string_to_id)
            ((r.id_to_string ++ [s]).get i) = some i.1
          simp only [lookupId, if_neg hne]
          exact hlook
        · have hieq : i.1 = r.id_to_string.length := by omega
          rw [hieq, getElem?_append_len] at hq
          have hgs : (r.id_to_string ++ [s]).get i = s := (Option.some.inj hq).symm
          show lookupId ((s, r.id_to_string.length) :: r.string_to_id)
            ((r.id_to_string ++ [s]).get i) = some i.1
          rw [hgs]
          simp [lookupId, hieq]

theorem runGetIds_nil (r : SymbolRegistry) : runGetIds r [] = r := rfl

theorem runGetIds_cons (r : SymbolRegistry) (s : String) (rest : List String) :
    runGetIds r (s :: rest) = runGetIds (r.get_id s).2 rest := rfl

theorem runGetIds_preserves : ∀ (ws : List String) {r : SymbolRegistry} {t : String} {i : Nat},
    lookupId r.string_to_id t = some i →
    lookupId (runGetIds r ws).string_to_id t = some i := by
  intro ws
  induction ws with
  | nil => intro r t i h; exact h
  | cons s rest ih =>
      intro r t i h
      rw [runGetIds_cons]
      exact ih (get_id_preserves s h)

theorem runGetIds_wf : ∀ (ws : List String) {r : SymbolRegistry}, RegistryWf r →
    RegistryWf (runGetIds r ws) := by
  intro ws
  induction ws with
  | nil => intro r h; exact h
  | cons s rest ih =>
      intro r h
      rw [runGetIds_cons]
      exact ih (get_id_wf h s)

/-! Registered-set abstraction: running `get_id` from the empty registry over
a workload leaves the registry describing exactly the set of symbols seen. -/

theorem regInv_empty : RegInv emptyRegistry ∅ := by
  refine ⟨⟨?_, ?_⟩, ?_, ?_⟩
  · intro p hp; cases hp
  · intro i; exact absurd i.isLt (by simp [emptyRegistry])
  · intro s; simp [emptyRegistry, lookupId]
  · simp [emptyRegistry]

theorem regInv_get_id {r : SymbolRegistry} {S : Finset String} (h : RegInv r S)
    (s : String) : RegInv (r.get_id s).2 (insert s S) := by
  cases hl : lookupId r.string_to_id s with
  | some id =>
      rw [get_id_of_lookup hl]
      have hs : s ∈ S := (h.mem_iff s).mp (by simp [hl])
      rw [Finset.insert_eq_self.mpr hs]
      exact h
  | none =>
      have hns : s ∉ S := fun hs => by
        have := (h.mem_iff s).mpr hs
        rw [hl] at this
        cases this
      constructor
      · exact get_id_wf h.wf s
      · intro t
        rw [get_id_of_none hl]
        show (lookupId ((s, r.id_to_string.length) :: r.string_to_id) t).isSome ↔ _
        by_cases ht : t = s
        · subst ht
          simp [lookupId]
        · simp only [lookupId, if_neg ht, Finset.mem_insert]
          rw [h.mem_iff t]
          simp [ht]
      · rw [get_id_of_none hl]
        show (r.id_to_string ++ [s]).length = _
        rw [Finset.card_insert_of_not_mem hns]
        simp [h.size_eq]

theorem regInv_run {r : SymbolRegistry} {S : Finset String} (h : RegInv r S) :
    ∀ ws : List String, RegInv (runGetIds r ws) (S ∪ ws.toFinset) := by
  intro ws
  induction ws generalizing r S with
  | nil => simpa using h
  | cons s rest ih =>
      rw [runGetIds_cons]
      have := ih (regInv_get_id h s)
      rw [Finset.insert_union] at this
      rw [List.toFinset_cons, Finset.union_insert]
      exact this

theorem regInv_empty_run (ws : List String) :
    RegInv (runGetIds emptyRegistry ws) ws.toFinset := by
  have := regInv_run regInv_empty ws
  rwa [Finset.empty_union] at this

/-! Cross-path equivalence: once the target is registered, the id returned by
`get_id` matches the target id exactly when the symbol text matches the
target text, and that correspondence survives every later `get_id`. -/

theorem get_id_hit_beq {r : SymbolRegistry} {target : String} {tid : Nat}
    (hwf : RegistryWf r) (ht : lookupId r.string_to_id target = some tid) (s : String) :
    ((r.get_id s).1 == tid) = (s == target) := by
  by_cases hs : s = target
  · subst hs
    rw [get_id_of_lookup ht]
    simp
  · have hself := get_id_self_lookup r s
    have ht2 := get_id_preserves s ht
    have hwf2 := get_id_wf hwf s
    have hne : (r.get_id s).1 ≠ tid := by
      intro he
      rw [he] at hself
      exact hs (wf_inj hwf2 hself ht2)
    simp [hne, hs]

theorem registryScenario_go (tid F : Nat) (target : String) :
    ∀ (ws : List String) (r : SymbolRegistry) (c : Nat), RegistryWf r →
      lookupId r.string_to_id target = some tid →
      (ws.foldl
        (fun acc s => (fanoutHits ((acc.2.get_id s).1 == tid) F acc.1, (acc.2.get_id s).2))
        (c, r)).1 =
      ws.foldl (fun acc s => fanoutHits (s == target) F acc) c := by
  intro ws
  induction ws with
  | nil => intro r c _ _; rfl
  | cons s rest ih =>
      intro r c hwf ht
      simp only [List.foldl_cons]
      rw [get_id_hit_beq hwf ht s]
      exact ih (r.get_id s).2 _ (get_id_wf hwf s) (get_id_preserves s ht)

/-- C1: for every workload, every target symbol already registered with id
`tid`, and every fanout `F ≥ 1`, the registry path (one `get_id` per element
followed by `F` id comparisons) and the direct path (`F` string comparisons
per element) produce equal total match counts. -/
theorem cross_path_equivalence (r : SymbolRegistry) (target : String) (tid F : Nat)
    (ws : List String) (hwf : RegistryWf r)
    (ht : lookupId r.string_to_id target = some tid) (_hF : 1 ≤ F) :
    (registryScenario r tid F ws).1 = directScenario target F ws := by
  unfold registryScenario directScenario
  exact registryScenario_go tid F target ws r 0 hwf ht

/-- Witness for C1 at the spec's concrete scenario B: workload
`["BTCUSD", "AAPL", "BTCUSD"]`, target `"BTCUSD"` with id 0, fanout 4. -/
theorem cross_path_equivalence_witness :
    RegistryWf (runGetIds emptyRegistry ["BTCUSD"]) ∧
    lookupId (runGetIds emptyRegistry ["BTCUSD"]).string_to_id "BTCUSD" = some 0 ∧
    1 ≤ 4 ∧
    (registryScenario (runGetIds emptyRegistry ["BTCUSD"]) 0 4
        ["BTCUSD", "AAPL", "BTCUSD"]).1 =
      directScenario "BTCUSD" 4 ["BTCUSD", "AAPL", "BTCUSD"] :=
  ⟨by decide, by decide, by decide,
    cross_path_equivalence _ "BTCUSD" 0 4 _ (by decide) (by decide) (by decide)⟩

/-- C2: the id returned by `get_id` for a symbol `s` round-trips through
`get_symbol` to exactly the text `s`, even after any further sequence of
`get_id` calls. -/
theorem registry_round_trip (r : SymbolRegistry) (s : String) (ws : List String)
    (hwf : RegistryWf r) :
    (runGetIds (r.get_id s).2 ws).get_symbol (r.get_id s).1 = some s := by
  have hwf2 := runGetIds_wf ws (get_id_wf hwf s)
  have hlook := runGetIds_preserves ws (get_id_self_lookup r s)
  exact wf_lookup_getElem hwf2 hlook

/-- Witness for C2: register `"ETHUSD"` in the fresh registry, then two more
symbols; `get_symbol` of the returned id still yields `"ETHUSD"`. -/
theorem registry_round_trip_witness :
    (runGetIds (emptyRegistry.get_id "ETHUSD").2 ["AAPL", "MSFT"]).get_symbol
      (emptyRegistry.get_id "ETHUSD").1 = some "ETHUSD" :=
  registry_round_trip emptyRegistry "ETHUSD" ["AAPL", "MSFT"] (by decide)

/-- C3: after any sequence of `get_id` calls on the fresh registry that
contains `k` distinct symbols, the assigned ids are exactly
`{0, ..., k-1}`: the reverse table has `k` cells, every workload symbol has
an id below `k`, no two distinct symbols share an id, and every id below `k`
is assigned to some workload symbol. -/
theorem id_density_uniqueness (ws : List String) :
    (runGetIds emptyRegistry ws).id_to_string.length = ws.toFinset.card ∧
    (∀ s ∈ ws, ∃ id, lookupId (runGetIds emptyRegistry ws).string_to_id s = some id ∧
      id < ws.toFinset.card) ∧
    (∀ s t : String, ∀ id : Nat,
      lookupId (runGetIds emptyRegistry ws).string_to_id s = some id →
      lookupId (runGetIds emptyRegistry ws).string_to_id t = some id → s = t) ∧
    (∀ id < ws.toFinset.card, ∃ s ∈ ws,
      lookupId (runGetIds emptyRegistry ws).string_to_id s = some id) := by
  obtain ⟨hwf, hmem, hlen⟩ := regInv_empty_run ws
  refine ⟨hlen, ?_, ?_, ?_⟩
  · intro s hs
    have hsome := (hmem s).mpr (List.mem_toFinset.mpr hs)
    obtain ⟨id, hid⟩ := Option.isSome_iff_exists.mp hsome
    refine ⟨id, hid, ?_⟩
    have := getElem?_some_lt (wf_lookup_getElem hwf hid)
    omega
  · intro s t id h1 h2
    exact wf_inj hwf h1 h2
  · intro id hid
    have hlt : id < (runGetIds emptyRegistry ws).id_to_string.length := by omega
    obtain ⟨a, ha⟩ : ∃ a, (runGetIds emptyRegistry ws).id_to_string[id]? = some a :=
      ⟨_, getElem?_of_get _ ⟨id, hlt⟩⟩
    have hlook := wf_getElem_lookup hwf ha
    have hsmem : a ∈ ws := List.mem_toFinset.mp ((hmem a).mp (by simp [hlook]))
    exact ⟨a, hsmem, hlook⟩

/-- Witness for C3 on the workload `["BTCUSD", "AAPL", "BTCUSD"]` (two
distinct symbols): `"AAPL"` is assigned an id below 2. -/
theorem id_density_uniqueness_witness :
    ∃ id, lookupId (runGetIds emptyRegistry ["BTCUSD", "AAPL", "BTCUSD"]).string_to_id
        "AAPL" = some id ∧
      id < (["BTCUSD", "AAPL", "BTCUSD"] : List String).toFinset.card :=
  (id_density_uniqueness ["BTCUSD", "AAPL", "BTCUSD"]).2.1 "AAPL" (by decide)

/-- C4: in any registry state, a second `get_id` on the same symbol returns
the same id with the registry unchanged, so in particular neither table's
size changes. -/
theorem id_stability (r : SymbolRegistry) (s : String) :
    (r.get_id s).2.get_id s = ((r.get_id s).1, (r.get_id s).2) ∧
    ((r.get_id s).2.get_id s).2.string_to_id.length =
      (r.get_id s).2.string_to_id.length ∧
    ((r.get_id s).2.get_id s).2.id_to_string.length =
      (r.get_id s).2.id_to_string.length := by
  have h := get_id_of_lookup (get_id_self_lookup r s)
  exact ⟨h, by rw [h], by rw [h]⟩

/-- C5: `get_symbol` on a registry built by any `get_id` sequence returns
`none` (the `std::out_of_range` signal of `at`) exactly for ids at or above
the count of assigned ids, returns text for every assigned id, and on the
fresh registry `get_symbol 0` is `none`. -/
theorem symbol_for_out_of_range (ws : List String) (id : Nat) :
    ((runGetIds emptyRegistry ws).get_symbol id = none ↔ ws.toFinset.card ≤ id) ∧
    ((∃ s, (runGetIds emptyRegistry ws).get_symbol id = some s) ↔
      id < ws.toFinset.card) ∧
    emptyRegistry.get_symbol 0 = none := by
  obtain ⟨hwf, hmem, hlen⟩ := regInv_empty_run ws
  refine ⟨?_, ?_, rfl⟩
  · rw [show (runGetIds emptyRegistry ws).get_symbol id =
        (runGetIds emptyRegistry ws).id_to_string[id]? from rfl,
      getElem?_none_iff, hlen]
  · constructor
    · rintro ⟨s, hs⟩
      have := getElem?_some_lt
        (hs : (runGetIds emptyRegistry ws).id_to_string[id]? = some s)
      omega
    · intro h
      have hlt : id < (runGetIds emptyRegistry ws).id_to_string.length := by omega
      exact ⟨_, getElem?_of_get _ ⟨id, hlt⟩⟩

/-! CLI parsing (claim C6).  The source computes
`argc > 1 ? static_cast<std::size_t>(atoll(argv[1])) : 10'000'000`: the
default is used only when the argument is omitted; a non-numeric argument
makes `atoll` return 0 and the program proceeds with 0 iterations. -/

theorem digitsVal_of_no_digit {cs : List Char} (h : leadingDigit cs = false) :
    digitsVal cs 0 = 0 := by
  cases cs with
  | nil => rfl
  | cons c rest =>
      simp only [leadingDigit] at h
      simp [digitsVal, h]

theorem atoll_of_no_number {a : String} (h : hasLeadingNumber a = false) :
    atoll a = 0 := by
  unfold atoll
  unfold hasLeadingNumber at h
  cases hd : a.toList.dropWhile cIsSpace with
  | nil => rfl
  | cons c rest =>
      rw [hd] at h
      have h2 : (if c = '-' ∨ c = '+' then leadingDigit rest else c.isDigit) = false := h
      show (if c = '-' then - digitsVal rest 0
        else if c = '+' then digitsVal rest 0 else digitsVal (c :: rest) 0) = 0
      by_cases hsign : c = '-' ∨ c = '+'
      · rw [if_pos hsign] at h2
        have hz := digitsVal_of_no_digit h2
        rcases hsign with hc | hc
        · rw [if_pos hc, hz]
          rfl
        · have hcm : c ≠ '-' := by
            subst hc
            decide
          rw [if_neg hcm, if_pos hc, hz]
      · rw [if_neg hsign] at h2
        push_neg at hsign
        rw [if_neg hsign.1, if_neg hsign.2]
        exact digitsVal_of_no_digit (by simpa [leadingDigit] using h2)

/-- C6 counterexample: with the non-numeric argument `"abc"` the program
does not use the default 10,000,000; it silently proceeds with an iteration
count of 0 derived from the failed `atoll` parse. -/
theorem cli_nonnumeric_counterexample :
    ITERATIONS ["abc"] = 0 ∧ ITERATIONS ["abc"] ≠ 10000000 := by
  decide

/-- C6 amended: the default 10,000,000 is used only when the argument is
omitted; any argument without a leading number parses to 0 and the program
proceeds with 0 iterations. -/
theorem cli_default_or_zero (a : String) (rest : List String)
    (h : hasLeadingNumber a = false) :
    ITERATIONS [] = 10000000 ∧ ITERATIONS (a :: rest) = 0 := by
  refine ⟨rfl, ?_⟩
  show ((atoll a) % (18446744073709551616 : Int)).toNat = 0
  rw [atoll_of_no_number h]
  rfl

/-- Witness for the amended C6 at the concrete argument `"abc"`. -/
theorem cli_default_or_zero_witness :
    ITERATIONS [] = 10000000 ∧ ITERATIONS ["abc"] = 0 :=
  cli_default_or_zero "abc" [] (by decide)

/-! Workload generator (claims C8 and C10). -/

theorem getD_mem_of_lt {α : Type} : ∀ (l : List α) (i : Nat) (d : α),
    i < l.length → l.getD i d ∈ l := by
  intro l
  induction l with
  | nil => intro i d h; cases h
  | cons a t ih =>
      intro i d h
      cases i with
      | zero => simp
      | succ j =>
          simp only [List.getD_cons_succ]
          exact List.mem_cons_of_mem _ (ih j d (Nat.lt_of_succ_lt_succ h))

theorem genGo_mem_pool : ∀ (n : Nat) (st : MTState) (s : String),
    s ∈ genGo n st → s ∈ SYMBOL_POOL := by
  intro n
  induction n with
  | zero => intro st s h; cases h
  | succ k ih =>
      intro st s h
      rcases List.mem_cons.mp h with h | h
      · rw [h]
        exact getD_mem_of_lt _ _ _ (Nat.mod_lt _ (by decide))
      · exact ih _ s h

theorem genGo_length : ∀ (n : Nat) (st : MTState), (genGo n st).length = n := by
  intro n
  induction n with
  | zero => intro st; rfl
  | succ k ih => intro st; simp [genGo, ih]

/-- C8: the workload generator is deterministic — being a pure function of
`(count, seed)`, two calls with identical arguments yield the same sequence
(stated as reflexive equality, which is exactly what determinism amounts to
in a pure embedding) — the sequence has length `count`, and every element is
drawn from the Symbol Pool. -/
theorem generator_reproducible (n seed : Nat) :
    generate_incoming_stream n seed = generate_incoming_stream n seed ∧
    (generate_incoming_stream n seed).length = n ∧
    (generate_incoming_stream n seed).all (fun s => decide (s ∈ SYMBOL_POOL)) = true := by
  refine ⟨rfl, genGo_length n _, ?_⟩
  rw [List.all_eq_true]
  intro s hs
  exact decide_eq_true (genGo_mem_pool n _ s hs)

/-- C10: with an iteration count of 0 (as produced by the non-numeric
argument `"notanumber"`), the generator returns the empty sequence, every
scenario loop counts 0 matches on both paths, every cross-validation check
passes, and the program completes with exit code 0, no diagnostic, and one
all-zero result row per fanout. -/
theorem zero_iterations_run :
    generate_incoming_stream 0 42 = [] ∧
    ITERATIONS ["notanumber"] = 0 ∧
    mainProgram ["notanumber"] = (0, none, fanoutSweep.map (fun f => ⟨f, 0⟩)) ∧
    (∀ (r : SymbolRegistry) (tid F : Nat),
      (registryScenario r tid F []).1 = 0 ∧ (registryOneToOne r tid []).1 = 0) ∧
    (∀ (target : String) (F : Nat),
      directScenario target F [] = 0 ∧ directOneToOne target [] = 0) := by
  refine ⟨rfl, by decide, by decide, ?_, ?_⟩
  · intro r tid F
    exact ⟨rfl, rfl⟩
  · intro target F
    exact ⟨rfl, rfl⟩

/-! Exit-code contract (claim C7): structure of the check-and-abort control
flow of `main` over the scenario count pairs. -/

theorem runFanoutSweep_spec (tid : Nat) (target : String) (ws : List String) :
    ∀ (fl : List Nat) (r : SymbolRegistry) (acc : List FanoutResult),
      ((runFanoutSweep tid target ws fl r acc).1 = 0 ∨
        (runFanoutSweep tid target ws fl r acc).1 = 1) ∧
      ((runFanoutSweep tid target ws fl r acc).1 = 0 ↔
        ∀ p ∈ fanoutTagged tid target ws fl r, p.2.1 = p.2.2) ∧
      ((runFanoutSweep tid target ws fl r acc).2.1 = none ↔
        (runFanoutSweep tid target ws fl r acc).1 = 0) ∧
      (∀ a b : Nat, (runFanoutSweep tid target ws fl r acc).2.1 ≠
        some (Diag.oneToOne a b)) ∧
      (∀ f a b : Nat, (runFanoutSweep tid target ws fl r acc).2.1 =
          some (Diag.oneToMany f a b) →
        a ≠ b ∧ (some f, a, b) ∈ fanoutTagged tid target ws fl r ∧
        ∃ pre post, fl = pre ++ f :: post ∧
          (runFanoutSweep tid target ws fl r acc).2.2.map FanoutResult.fanout =
            acc.map FanoutResult.fanout ++ pre) := by
  intro fl
  induction fl with
  | nil =>
      intro r acc
      refine ⟨Or.inl rfl, by simp [runFanoutSweep, fanoutTagged], ?_, ?_, ?_⟩
      · simp [runFanoutSweep]
      · intro a b
        simp [runFanoutSweep]
      · intro f a b h
        simp [runFanoutSweep] at h
  | cons f rest ih =>
      intro r acc
      by_cases hcd :
          (registryScenario (runGetIds r ws) tid f ws).1 = directScenario target f ws
      · have heq : runFanoutSweep tid target ws (f :: rest) r acc =
            runFanoutSweep tid target ws rest
              (registryScenario (runGetIds r ws) tid f ws).2
              (acc ++ [⟨f, (registryScenario (runGetIds r ws) tid f ws).1⟩]) := by
          simp only [runFanoutSweep]
          rw [if_pos hcd]
        rw [heq]
        obtain ⟨ih1, ih2, ih3, ih4, ih5⟩ :=
          ih (registryScenario (runGetIds r ws) tid f ws).2
            (acc ++ [⟨f, (registryScenario (runGetIds r ws) tid f ws).1⟩])
        refine ⟨ih1, ?_, ih3, ih4, ?_⟩
        · rw [ih2]
          simp only [fanoutTagged, List.mem_cons]
          constructor
          · intro hall p hp
            rcases hp with hp | hp
            · rw [hp]
              exact hcd
            · exact hall p hp
          · intro hall p hp
            exact hall p (Or.inr hp)
        · intro f2 a b h
          obtain ⟨hne, hmem, pre, post, hfl, hmap⟩ := ih5 f2 a b h
          refine ⟨hne, ?_, f :: pre, post, by rw [hfl]; simp, ?_⟩
          · simp only [fanoutTagged, List.mem_cons]
            exact Or.inr hmem
          · rw [hmap]
            simp [List.map_append]
      · have heq : runFanoutSweep tid target ws (f :: rest) r acc =
            (1, some (Diag.oneToMany f (registryScenario (runGetIds r ws) tid f ws).1
              (directScenario target f ws)), acc) := by
          simp only [runFanoutSweep]
          rw [if_neg hcd]
        rw [heq]
        refine ⟨Or.inr rfl, ?_, by simp, by simp, ?_⟩
        · constructor
          · intro h
            cases h
          · intro hall
            have hmemh : (some f, (registryScenario (runGetIds r ws) tid f ws).1,
                directScenario target f ws) ∈ fanoutTagged tid target ws (f :: rest) r := by
              simp only [fanoutTagged]
              exact List.mem_cons_self _ _
            exact absurd (hall _ hmemh) hcd
        · intro f2 a b h
          simp only [Option.some.injEq, Diag.oneToMany.injEq] at h
          obtain ⟨rfl, rfl, rfl⟩ := h
          refine ⟨hcd, ?_, [], rest, rfl, by simp⟩
          simp only [fanoutTagged]
          exact List.mem_cons_self _ _

/-- C7: the exit code is 0 exactly when every scenario's registry-path and
direct-path match counts agree; whenever they do not all agree the exit code
is 1 with a diagnostic naming the violating scenario (1-to-1, or 1-to-many
with its fanout) and its two counts, and the completed result rows are
exactly those of the fanout points strictly before the failing one, so no
later scenario is executed. -/
theorem exit_code_contract (r : SymbolRegistry) (tid : Nat) (target : String)
    (ws : List String) :
    ((runScenarios r tid target ws).1 = 0 ∨ (runScenarios r tid target ws).1 = 1) ∧
    ((runScenarios r tid target ws).1 = 0 ↔
      ∀ p ∈ taggedPairs r tid target ws, p.2.1 = p.2.2) ∧
    ((runScenarios r tid target ws).2.1 = none ↔ (runScenarios r tid target ws).1 = 0) ∧
    (∀ a b : Nat, (runScenarios r tid target ws).2.1 = some (Diag.oneToOne a b) →
      a ≠ b ∧ (none, a, b) ∈ taggedPairs r tid target ws ∧
      (runScenarios r tid target ws).2.2 = []) ∧
    (∀ f a b : Nat, (runScenarios r tid target ws).2.1 = some (Diag.oneToMany f a b) →
      a ≠ b ∧ (some f, a, b) ∈ taggedPairs r tid target ws ∧
      ∃ pre post, fanoutSweep = pre ++ f :: post ∧
        (runScenarios r tid target ws).2.2.map FanoutResult.fanout = pre) := by
  by_cases hab :
      (registryOneToOne (runGetIds r ws) tid ws).1 = directOneToOne target ws
  · have heq : runScenarios r tid target ws =
        runFanoutSweep tid target ws fanoutSweep
          (registryOneToOne (runGetIds r ws) tid ws).2 [] := by
      unfold runScenarios
      rw [if_pos hab]
    rw [heq]
    obtain ⟨ih1, ih2, ih3, ih4, ih5⟩ :=
      runFanoutSweep_spec tid target ws fanoutSweep
        (registryOneToOne (runGetIds r ws) tid ws).2 []
    refine ⟨ih1, ?_, ih3, ?_, ?_⟩
    · rw [ih2]
      simp only [taggedPairs, List.mem_cons]
      constructor
      · intro hall p hp
        rcases hp with hp | hp
        · rw [hp]
          exact hab
        · exact hall p hp
      · intro hall p hp
        exact hall p (Or.inr hp)
    · intro a b h
      exact absurd h (ih4 a b)
    · intro f a b h
      obtain ⟨hne, hmem, pre, post, hfl, hmap⟩ := ih5 f a b h
      refine ⟨hne, ?_, pre, post, hfl, by simpa using hmap⟩
      simp only [taggedPairs, List.mem_cons]
      exact Or.inr hmem
  · have heq : runScenarios r tid target ws =
        (1, some (Diag.oneToOne (registryOneToOne (runGetIds r ws) tid ws).1
          (directOneToOne target ws)), []) := by
      unfold runScenarios
      rw [if_neg hab]
    rw [heq]
    refine ⟨Or.inr rfl, ?_, by simp, ?_, ?_⟩
    · constructor
      · intro h
        cases h
      · intro hall
        have hmemh : (none, (registryOneToOne (runGetIds r ws) tid ws).1,
            directOneToOne target ws) ∈ taggedPairs r tid target ws := by
          simp only [taggedPairs]
          exact List.mem_cons_self _ _
        exact absurd (hall _ hmemh) hab
    · intro a b h
      simp only [Option.some.injEq, Diag.oneToOne.injEq] at h
      obtain ⟨rfl, rfl⟩ := h
      refine ⟨hab, ?_, rfl⟩
      simp only [taggedPairs]
      exact List.mem_cons_self _ _
    · intro f a b h
      simp at h

/-- Witness for C7 at a concrete mismatching input: with an unregistered
target id 99 the 1-to-1 counts are 0 and 1, and the run stops with that
diagnostic and no completed fanout rows. -/
theorem exit_code_contract_witness :
    (0 : Nat) ≠ 1 ∧ (none, 0, 1) ∈ taggedPairs emptyRegistry 99 "AAPL" ["AAPL"] ∧
    (runScenarios emptyRegistry 99 "AAPL" ["AAPL"]).2.2 = [] :=
  (exit_code_contract emptyRegistry 99 "AAPL" ["AAPL"]).2.2.2.1 0 1 (by decide)
